import Mathlib

set_option linter.unusedVariables false

/-!
Verification of the QuanDA quantitative-deconvolution core.

Shallow embedding of `src/QuanDA.ipynb` (cell `d813d212`): the window-max
extractor `range_sel_max` with its inner closure `max_sel`, and the `QuanDA`
class (`__init__`, `peak_sel`, `calc`).  Floating-point numbers are modelled
as rationals (`ℚ`); a non-finite float (NaN or Inf, produced in this code
only by division by zero) is modelled as `none : Option ℚ`.  An exception
raised by numpy or scipy is modelled as `none` at the `Option` result type
of the operation that raises.  Spectra are loaded with `dtype=float`, so all
arrays are modelled uniformly as float (rational) arrays.
-/

namespace QuanDA

/-- numpy elementwise `arr > c` (a boolean mask). -/
def np_mask_gt (l : List ℚ) (c : ℚ) : List Bool :=
  l.map (fun x => decide (c < x))

/-- numpy elementwise `arr < c` (a boolean mask). -/
def np_mask_lt (l : List ℚ) (c : ℚ) : List Bool :=
  l.map (fun x => decide (x < c))

/-- numpy elementwise `mask1 & mask2`.  numpy requires equal shapes; every
call site in the notebook applies it to masks of one common length. -/
def np_and (m1 m2 : List Bool) : List Bool :=
  List.zipWith and m1 m2

/-- numpy boolean-mask indexing `vals[mask]`: keep `vals[j]` where `mask[j]`
is true.  numpy requires `len(vals) = len(mask)`; call sites satisfy it. -/
def np_boolSelect (vals : List ℚ) (mask : List Bool) : List ℚ :=
  (vals.zip mask).filterMap (fun p => if p.2 then some p.1 else none)

/-- numpy `.max()` on an array: `none` models the `ValueError` that numpy
raises on an empty array; on a nonempty array it is the maximum element. -/
def npMax (l : List ℚ) : Option ℚ :=
  match l with
  | [] => none
  | x :: xs => some (xs.foldl max x)

/-- Embedding of the inner closure `max_sel(_mz, _int_, _min, _max)` of
`range_sel_max`.  The first argument is the *enclosing* m/z array `mz`,
captured by the closure: the body computes
`v = _int_[(_mz > _min) & (mz < _max)]` — lower bound against the parameter
`_mz`, upper bound against the captured `mz` — and returns `0` when the
selection is empty, else `v.max()`. -/
def max_sel (mz _mz _int : List ℚ) (mn mx : ℚ) : ℚ :=
  let v := np_boolSelect _int (np_and (np_mask_gt _mz mn) (np_mask_lt mz mx))
  match v with
  | [] => 0
  | x :: xs => xs.foldl max x

/-- Embedding of `range_sel_max(mz, int_, sels)`, that is
`np.asarray([max_sel(mz, int_, min, max) for (min, max) in sels])`.  Note
that `max_sel` is invoked with the enclosing `mz` as its `_mz` argument. -/
def range_sel_max (mz int_ : List ℚ) (sels : List (ℚ × ℚ)) : List ℚ :=
  sels.map (fun s => max_sel mz mz int_ s.1 s.2)

/-- Corrected selector per spec section 9: both bounds compare against the
m/z array `_mz` of the given spectrum itself. -/
def max_sel_fixed (_mz _int : List ℚ) (mn mx : ℚ) : ℚ :=
  let v := np_boolSelect _int (np_and (np_mask_gt _mz mn) (np_mask_lt _mz mx))
  match v with
  | [] => 0
  | x :: xs => xs.foldl max x

/-- Extraction rebuilt on top of the corrected selector. -/
def range_sel_max_fixed (mz int_ : List ℚ) (sels : List (ℚ × ℚ)) : List ℚ :=
  sels.map (fun s => max_sel_fixed mz int_ s.1 s.2)

/-- IEEE division modelled in ℚ: dividing by zero yields a non-finite float
(`inf`, `-inf` or `nan` depending on the numerator), collapsed to `none`;
numpy emits only a RuntimeWarning there, it raises no exception. -/
def qdiv (a b : ℚ) : Option ℚ :=
  if b = 0 then none else some (a / b)

/-- State of a constructed `QuanDA` object: the deep-copied window list
`sel`, the two normalized reference columns `before` and `after`, and
`coef = np.column_stack((self.before, self.after))` — one row per window,
each row the pair of the two column entries at that window. -/
structure State where
  sel : List (ℚ × ℚ)
  before : List (Option ℚ)
  after : List (Option ℚ)
  coef : List (Option ℚ × Option ℚ)
deriving DecidableEq, Repr

/-- Embedding of `QuanDA.__init__(chem1, chem2, sel)`: deep-copy the window
list, extract both reference columns over it, then divide each column in
place by its own `.max()`.  The outer `none` models the `ValueError` that
`.max()` raises on an empty window list; entries of a column whose maximum
is zero become non-finite through `qdiv` — no exception is raised for that
case, the basis is returned with `inf`/`nan` entries. -/
def init (mz1 int1 mz2 int2 : List ℚ) (sel : List (ℚ × ℚ)) : Option State :=
  let selCopy := sel
  let before0 := range_sel_max mz1 int1 selCopy
  let after0 := range_sel_max mz2 int2 selCopy
  match npMax before0, npMax after0 with
  | some m1, some m2 =>
      let before := before0.map (fun x => qdiv x m1)
      let after := after0.map (fun x => qdiv x m2)
      some { sel := selCopy, before := before, after := after,
             coef := before.zip after }
  | _, _ => none

/-- Embedding of `QuanDA.peak_sel(data)`: extract one row per spectrum, in
input order, then `np.stack(peaks, 0)`.  `np.stack` raises `ValueError`
(need at least one array to stack) on an empty list, modelled by `none`. -/
def peak_sel (sel : List (ℚ × ℚ)) (data : List (List ℚ × List ℚ)) :
    Option (List (List ℚ)) :=
  let peaks := data.map (fun spec => range_sel_max spec.1 spec.2 sel)
  match peaks with
  | [] => none
  | p :: ps => some (p :: ps)

/-- Embedding of `joblib.Parallel(n_jobs=n)(tasks)` applied to a list of
`joblib.delayed` thunks.  Per the documented joblib contract the results
come back in the order the tasks were submitted, whatever the worker count,
and each task here is a pure function; so the embedding evaluates the thunks
in submission order and the result does not depend on `n_jobs`. -/
def joblibParallel {α : Type} (n_jobs : Option Int) (tasks : List (Unit → α)) :
    List α :=
  tasks.map (fun t => t ())

/-- Embedding of `QuanDA.calc(B, n_jobs)`: run
`scipy.optimize.nnls(self.coef, B[i, :])[0]` for each row `i` through
`joblib.Parallel`, `np.stack` the results (raises `ValueError` on an empty
`B`, modelled by `none`), then `results /= results.sum(1, keepdims=True)` —
each row divided by its own sum, a zero sum yielding non-finite entries
through `qdiv` with no exception raised.  `scipy.optimize.nnls` is an
external solver, passed in as the function argument `nnls`. -/
def calc_ (nnls : List (Option ℚ × Option ℚ) → List ℚ → List ℚ)
    (coef : List (Option ℚ × Option ℚ)) (B : List (List ℚ))
    (n_jobs : Option Int) : Option (List (List (Option ℚ))) :=
  let results := joblibParallel n_jobs (B.map (fun b => fun _ => nnls coef b))
  match results with
  | [] => none
  | r :: rs =>
      some ((r :: rs).map (fun x => x.map (fun xi => qdiv xi x.sum)))

/-!
Heap model for the frame-effect claims.  Python variables hold references to
heap objects; `arr` maps addresses to float arrays and `wins` maps addresses
to window lists.  Mutating the object behind one address leaves every other
address untouched.
-/

/-- Tiny Python heap: numeric arrays and window lists, addressed by `Nat`. -/
structure PyHeap where
  arr : Nat → List ℚ
  wins : Nat → List (ℚ × ℚ)

/-- In-place mutation of the window list stored at address `a`. -/
def heapSetWins (h : PyHeap) (a : Nat) (l : List (ℚ × ℚ)) : PyHeap :=
  { arr := h.arr, wins := fun x => if x = a then l else h.wins x }

/-- Heap-level run of `range_sel_max` on the arrays at `mzA`, `intA` and the
window list at `selsA`.  Every operation of the body — the elementwise
comparisons, `&`, boolean-mask indexing, `.max()`, `np.asarray` and the list
comprehension — allocates a fresh value and assigns to none of the inputs,
so the run returns the heap unchanged next to its result. -/
def range_sel_max_onHeap (h : PyHeap) (mzA intA selsA : Nat) :
    PyHeap × List ℚ :=
  (h, range_sel_max (h.arr mzA) (h.arr intA) (h.wins selsA))

/-- Heap-level run of `QuanDA.__init__`: `self.sel = deepcopy(sel)` reads
the window list of the caller at `selA` and stores an independent copy at
the fresh address `fresh` (Python deepcopy always allocates new objects);
the constructed object keeps only the fresh address and the value snapshots
`before`, `after`, `coef`. -/
def init_onHeap (h : PyHeap) (mz1 int1 mz2 int2 : List ℚ)
    (selA fresh : Nat) : PyHeap × Nat × Option State :=
  let contents := h.wins selA
  (heapSetWins h fresh contents, fresh, init mz1 int1 mz2 int2 contents)

/-- Heap-level run of `QuanDA.peak_sel`: reads `self.sel` at the address the
object stores. -/
def peak_sel_onHeap (h : PyHeap) (selfSelA : Nat)
    (data : List (List ℚ × List ℚ)) : Option (List (List ℚ)) :=
  peak_sel (h.wins selfSelA) data

/-- Heap-level run of `QuanDA.calc`: the body reads only `self.coef`, the
value snapshot held by the object state, never `self.sel` or any window list
on the heap. -/
def calc_onHeap (h : PyHeap) (st : State)
    (nnls : List (Option ℚ × Option ℚ) → List ℚ → List ℚ)
    (B : List (List ℚ)) (n_jobs : Option Int) :
    Option (List (List (Option ℚ))) :=
  calc_ nnls st.coef B n_jobs

/-!
Helper lemmas: maxima of folds, the characterization of `npMax`, membership
in a window selection, and indexing through `List.map`.
-/

lemma foldl_max_init_le (xs : List ℚ) (a : ℚ) : a ≤ xs.foldl max a := by
  induction xs generalizing a with
  | nil => exact le_refl a
  | cons x xs ih => exact le_trans (le_max_left a x) (ih (max a x))

lemma foldl_max_le_of_mem (xs : List ℚ) :
    ∀ (a x : ℚ), x ∈ xs → x ≤ xs.foldl max a := by
  induction xs with
  | nil => intro a x hx; cases hx
  | cons y ys ih =>
      intro a x hx
      rcases List.mem_cons.mp hx with h | h
      · subst h
        exact le_trans (le_max_right a x) (foldl_max_init_le ys (max a x))
      · exact ih (max a y) x h

lemma foldl_max_mem_or (xs : List ℚ) :
    ∀ a : ℚ, xs.foldl max a = a ∨ xs.foldl max a ∈ xs := by
  induction xs with
  | nil => intro a; left; rfl
  | cons y ys ih =>
      intro a
      rw [List.foldl_cons]
      rcases ih (max a y) with h | h
      · rw [h]
        rcases max_choice a y with he | he
        · left; exact he
        · right; rw [he]; exact List.mem_cons_self y ys
      · right; exact List.mem_cons_of_mem y h

lemma npMax_spec (l : List ℚ) (m : ℚ) (h : npMax l = some m) :
    m ∈ l ∧ ∀ x ∈ l, x ≤ m := by
  cases l with
  | nil => simp [npMax] at h
  | cons x xs =>
      have hm : xs.foldl max x = m := by simpa [npMax] using h
      subst hm
      refine ⟨?_, ?_⟩
      · rcases foldl_max_mem_or xs x with h1 | h1
        · rw [h1]; exact List.mem_cons_self x xs
        · exact List.mem_cons_of_mem x h1
      · intro y hy
        rcases List.mem_cons.mp hy with h1 | h1
        · subst h1; exact foldl_max_init_le xs y
        · exact foldl_max_le_of_mem xs x y h1

lemma npMax_eq_of_mem_of_le (l : List ℚ) (m : ℚ) (hm : m ∈ l)
    (hb : ∀ x ∈ l, x ≤ m) : npMax l = some m := by
  cases l with
  | nil => cases hm
  | cons x xs =>
      have hs := npMax_spec (x :: xs) (xs.foldl max x) (by simp [npMax])
      have h1 : xs.foldl max x ≤ m := hb _ hs.1
      have h2 : m ≤ xs.foldl max x := hs.2 m hm
      simpa [npMax] using le_antisymm h1 h2

lemma boolSelect_masks_cons (a b mn mx : ℚ) (mz int_ : List ℚ) :
    np_boolSelect (b :: int_)
        (np_and (np_mask_gt (a :: mz) mn) (np_mask_lt (a :: mz) mx)) =
      (if mn < a ∧ a < mx then
        b :: np_boolSelect int_ (np_and (np_mask_gt mz mn) (np_mask_lt mz mx))
      else
        np_boolSelect int_ (np_and (np_mask_gt mz mn) (np_mask_lt mz mx))) := by
  by_cases h1 : mn < a <;> by_cases h2 : a < mx <;>
    simp [np_boolSelect, np_and, np_mask_gt, np_mask_lt, h1, h2]

lemma mem_winSel_iff (mz : List ℚ) :
    ∀ (int_ : List ℚ), mz.length = int_.length → ∀ (mn mx x : ℚ),
      (x ∈ np_boolSelect int_ (np_and (np_mask_gt mz mn) (np_mask_lt mz mx)) ↔
        ∃ j, j < mz.length ∧ mn < mz.getD j 0 ∧ mz.getD j 0 < mx ∧
          x = int_.getD j 0) := by
  induction mz with
  | nil =>
      intro int_ hlen mn mx x
      cases int_ with
      | nil => simp [np_boolSelect, np_and, np_mask_gt, np_mask_lt]
      | cons b bs => simp at hlen
  | cons a mz ih =>
      intro int_ hlen mn mx x
      cases int_ with
      | nil => simp at hlen
      | cons b bs =>
          have hlen2 : mz.length = bs.length := by simpa using hlen
          rw [boolSelect_masks_cons]
          by_cases hc : mn < a ∧ a < mx
          · rw [if_pos hc]
            constructor
            · intro hx
              rcases List.mem_cons.mp hx with h | h
              · exact ⟨0, by simp, by simpa using hc.1, by simpa using hc.2,
                  by simpa using h⟩
              · rcases (ih bs hlen2 mn mx x).mp h with ⟨j, hj, h1, h2, h3⟩
                refine ⟨j + 1, by simpa using Nat.succ_lt_succ hj, ?_, ?_, ?_⟩
                · simpa [List.getD_cons_succ] using h1
                · simpa [List.getD_cons_succ] using h2
                · simpa [List.getD_cons_succ] using h3
            · rintro ⟨j, hj, h1, h2, h3⟩
              cases j with
              | zero =>
                  rw [List.getD_cons_zero] at h3
                  rw [h3]
                  exact List.mem_cons_self b _
              | succ j =>
                  refine List.mem_cons_of_mem b ((ih bs hlen2 mn mx x).mpr
                    ⟨j, ?_, ?_, ?_, ?_⟩)
                  · exact Nat.lt_of_succ_lt_succ (by simpa using hj)
                  · simpa [List.getD_cons_succ] using h1
                  · simpa [List.getD_cons_succ] using h2
                  · simpa [List.getD_cons_succ] using h3
          · rw [if_neg hc]
            rw [ih bs hlen2 mn mx x]
            constructor
            · rintro ⟨j, hj, h1, h2, h3⟩
              refine ⟨j + 1, by simpa using Nat.succ_lt_succ hj, ?_, ?_, ?_⟩
              · simpa [List.getD_cons_succ] using h1
              · simpa [List.getD_cons_succ] using h2
              · simpa [List.getD_cons_succ] using h3
            · rintro ⟨j, hj, h1, h2, h3⟩
              cases j with
              | zero =>
                  exfalso
                  exact hc ⟨by simpa using h1, by simpa using h2⟩
              | succ j =>
                  refine ⟨j, Nat.lt_of_succ_lt_succ (by simpa using hj), ?_, ?_, ?_⟩
                  · simpa [List.getD_cons_succ] using h1
                  · simpa [List.getD_cons_succ] using h2
                  · simpa [List.getD_cons_succ] using h3

lemma getD_map_of_lt {α β : Type} (f : α → β) (l : List α) :
    ∀ (i : Nat), i < l.length → ∀ (d : α) (e : β),
      (l.map f).getD i e = f (l.getD i d) := by
  induction l with
  | nil => intro i hi; exact absurd hi (by simp)
  | cons a l ih =>
      intro i hi d e
      cases i with
      | zero => simp
      | succ j =>
          rw [List.map_cons, List.getD_cons_succ, List.getD_cons_succ]
          exact ih j (by simpa using hi) d e

lemma sum_map_div (l : List ℚ) (s : ℚ) :
    (l.map (fun x => x / s)).sum = l.sum / s := by
  induction l with
  | nil => simp
  | cons a l ih => simp [ih, add_div]

lemma max_sel_eq (mz _mz _int : List ℚ) (mn mx : ℚ) :
    max_sel mz _mz _int mn mx =
      (npMax (np_boolSelect _int
        (np_and (np_mask_gt _mz mn) (np_mask_lt mz mx)))).getD 0 := by
  cases h : np_boolSelect _int (np_and (np_mask_gt _mz mn) (np_mask_lt mz mx)) with
  | nil => simp [max_sel, npMax, h]
  | cons c cs => simp [max_sel, npMax, h]

lemma max_sel_spec (mz int_ : List ℚ) (hlen : mz.length = int_.length)
    (mn mx : ℚ) :
    ((∀ j, j < mz.length → ¬(mn < mz.getD j 0 ∧ mz.getD j 0 < mx)) →
      max_sel mz mz int_ mn mx = 0) ∧
    (∀ j, j < mz.length → mn < mz.getD j 0 → mz.getD j 0 < mx →
      int_.getD j 0 ≤ max_sel mz mz int_ mn mx) ∧
    ((∃ j, j < mz.length ∧ mn < mz.getD j 0 ∧ mz.getD j 0 < mx) →
      ∃ k, k < mz.length ∧ mn < mz.getD k 0 ∧ mz.getD k 0 < mx ∧
        max_sel mz mz int_ mn mx = int_.getD k 0) := by
  have hms := max_sel_eq mz mz int_ mn mx
  refine ⟨?_, ?_, ?_⟩
  · intro hnone
    cases hv : np_boolSelect int_ (np_and (np_mask_gt mz mn) (np_mask_lt mz mx)) with
    | nil => rw [hms, hv]; rfl
    | cons c cs =>
        exfalso
        have hc : c ∈ np_boolSelect int_
            (np_and (np_mask_gt mz mn) (np_mask_lt mz mx)) := by
          rw [hv]; exact List.mem_cons_self c cs
        rcases (mem_winSel_iff mz int_ hlen mn mx c).mp hc with ⟨j, hj, h1, h2, _⟩
        exact hnone j hj ⟨h1, h2⟩
  · intro j hj h1 h2
    have hmem : int_.getD j 0 ∈ np_boolSelect int_
        (np_and (np_mask_gt mz mn) (np_mask_lt mz mx)) :=
      (mem_winSel_iff mz int_ hlen mn mx (int_.getD j 0)).mpr ⟨j, hj, h1, h2, rfl⟩
    cases hv : np_boolSelect int_ (np_and (np_mask_gt mz mn) (np_mask_lt mz mx)) with
    | nil => rw [hv] at hmem; cases hmem
    | cons c cs =>
        rw [hms, hv]
        rw [hv] at hmem
        have hs := npMax_spec (c :: cs) (cs.foldl max c) (by simp [npMax])
        simpa [npMax] using hs.2 _ hmem
  · rintro ⟨j, hj, h1, h2⟩
    cases hv : np_boolSelect int_ (np_and (np_mask_gt mz mn) (np_mask_lt mz mx)) with
    | nil =>
        exfalso
        have hmem : int_.getD j 0 ∈ np_boolSelect int_
            (np_and (np_mask_gt mz mn) (np_mask_lt mz mx)) :=
          (mem_winSel_iff mz int_ hlen mn mx (int_.getD j 0)).mpr
            ⟨j, hj, h1, h2, rfl⟩
        rw [hv] at hmem
        cases hmem
    | cons c cs =>
        have hs := npMax_spec (c :: cs) (cs.foldl max c) (by simp [npMax])
        have hmem1 : cs.foldl max c ∈ np_boolSelect int_
            (np_and (np_mask_gt mz mn) (np_mask_lt mz mx)) := by
          rw [hv]; exact hs.1
        rcases (mem_winSel_iff mz int_ hlen mn mx (cs.foldl max c)).mp hmem1 with
          ⟨k, hk, g1, g2, g3⟩
        refine ⟨k, hk, g1, g2, ?_⟩
        rw [hms, hv]
        simpa [npMax] using g3

/-- C9: the variable shadowing in `max_sel` (upper bound compared against the
enclosing `mz`, lower bound against the parameter `_mz`) is behaviorally
harmless: since `range_sel_max` invokes `max_sel` with the enclosing `mz` as
its `_mz` argument, it is extensionally equal to the corrected version that
uses the given spectrum's own m/z array for both bounds. -/
theorem C9_shadowing_harmless (mz int_ : List ℚ) (sels : List (ℚ × ℚ)) :
    range_sel_max mz int_ sels = range_sel_max_fixed mz int_ sels := rfl

/-- C1: for a spectrum with equal-length m/z and intensity arrays,
`range_sel_max` returns one value per window; the value for window
`(lo, hi)` is an upper bound of the intensities at indices whose m/z lies
strictly between `lo` and `hi`, is attained at such an index whenever one
exists, and equals 0 when no index matches (in particular for windows
entirely outside the m/z range of the spectrum). -/
theorem C1_window_max_extraction (mz int_ : List ℚ) (sels : List (ℚ × ℚ))
    (hlen : mz.length = int_.length) :
    (range_sel_max mz int_ sels).length = sels.length ∧
    ∀ i, i < sels.length →
      ((∀ j, j < mz.length →
          ¬((sels.getD i (0, 0)).1 < mz.getD j 0 ∧
            mz.getD j 0 < (sels.getD i (0, 0)).2)) →
        (range_sel_max mz int_ sels).getD i 0 = 0) ∧
      (∀ j, j < mz.length → (sels.getD i (0, 0)).1 < mz.getD j 0 →
          mz.getD j 0 < (sels.getD i (0, 0)).2 →
        int_.getD j 0 ≤ (range_sel_max mz int_ sels).getD i 0) ∧
      ((∃ j, j < mz.length ∧ (sels.getD i (0, 0)).1 < mz.getD j 0 ∧
          mz.getD j 0 < (sels.getD i (0, 0)).2) →
        ∃ k, k < mz.length ∧ (sels.getD i (0, 0)).1 < mz.getD k 0 ∧
          mz.getD k 0 < (sels.getD i (0, 0)).2 ∧
          (range_sel_max mz int_ sels).getD i 0 = int_.getD k 0) := by
  refine ⟨by simp [range_sel_max], ?_⟩
  intro i hi
  have hr : (range_sel_max mz int_ sels).getD i 0 =
      max_sel mz mz int_ (sels.getD i (0, 0)).1 (sels.getD i (0, 0)).2 := by
    unfold range_sel_max
    rw [getD_map_of_lt (fun s => max_sel mz mz int_ s.1 s.2) sels i hi (0, 0) 0]
  rw [hr]
  exact max_sel_spec mz int_ hlen (sels.getD i (0, 0)).1 (sels.getD i (0, 0)).2

/-- Witness for C1 at the spectrum mz = [1], intensity = [5] and the single
window (0, 2). -/
theorem C1_witness :
    ([(1 : ℚ)].length = [(5 : ℚ)].length) ∧
    ((range_sel_max [1] [5] [(0, 2)]).length = [((0 : ℚ), (2 : ℚ))].length ∧
      ∀ i, i < [((0 : ℚ), (2 : ℚ))].length →
        ((∀ j, j < [(1 : ℚ)].length →
            ¬(([((0 : ℚ), (2 : ℚ))].getD i (0, 0)).1 < [(1 : ℚ)].getD j 0 ∧
              [(1 : ℚ)].getD j 0 < ([((0 : ℚ), (2 : ℚ))].getD i (0, 0)).2)) →
          (range_sel_max [1] [5] [(0, 2)]).getD i 0 = 0) ∧
        (∀ j, j < [(1 : ℚ)].length →
            ([((0 : ℚ), (2 : ℚ))].getD i (0, 0)).1 < [(1 : ℚ)].getD j 0 →
            [(1 : ℚ)].getD j 0 < ([((0 : ℚ), (2 : ℚ))].getD i (0, 0)).2 →
          [(5 : ℚ)].getD j 0 ≤ (range_sel_max [1] [5] [(0, 2)]).getD i 0) ∧
        ((∃ j, j < [(1 : ℚ)].length ∧
            ([((0 : ℚ), (2 : ℚ))].getD i (0, 0)).1 < [(1 : ℚ)].getD j 0 ∧
            [(1 : ℚ)].getD j 0 < ([((0 : ℚ), (2 : ℚ))].getD i (0, 0)).2) →
          ∃ k, k < [(1 : ℚ)].length ∧
            ([((0 : ℚ), (2 : ℚ))].getD i (0, 0)).1 < [(1 : ℚ)].getD k 0 ∧
            [(1 : ℚ)].getD k 0 < ([((0 : ℚ), (2 : ℚ))].getD i (0, 0)).2 ∧
            (range_sel_max [1] [5] [(0, 2)]).getD i 0 = [(5 : ℚ)].getD k 0)) :=
  ⟨rfl, C1_window_max_extraction [1] [5] [(0, 2)] rfl⟩

/-- C5: for a non-degenerate pair of reference spectra (each extracted
column has a strictly positive maximum), `QuanDA.__init__` succeeds and
returns a basis whose rows are the pairs of the two normalized column
entries (2 columns), with one row per window, and each normalized column has
maximum exactly 1. -/
theorem C5_basis_normalized (mz1 int1 mz2 int2 : List ℚ) (sel : List (ℚ × ℚ))
    (m1 m2 : ℚ)
    (h1 : npMax (range_sel_max mz1 int1 sel) = some m1) (hp1 : 0 < m1)
    (h2 : npMax (range_sel_max mz2 int2 sel) = some m2) (hp2 : 0 < m2) :
    ∃ st, init mz1 int1 mz2 int2 sel = some st ∧
      st.coef = st.before.zip st.after ∧
      st.before.length = sel.length ∧
      st.after.length = sel.length ∧
      st.coef.length = sel.length ∧
      (∃ qs : List ℚ, st.before = qs.map some ∧ npMax qs = some 1) ∧
      (∃ qs : List ℚ, st.after = qs.map some ∧ npMax qs = some 1) := by
  have hm1ne : m1 ≠ 0 := ne_of_gt hp1
  have hm2ne : m2 ≠ 0 := ne_of_gt hp2
  have key : init mz1 int1 mz2 int2 sel = some
      { sel := sel,
        before := (range_sel_max mz1 int1 sel).map (fun x => qdiv x m1),
        after := (range_sel_max mz2 int2 sel).map (fun x => qdiv x m2),
        coef := ((range_sel_max mz1 int1 sel).map (fun x => qdiv x m1)).zip
          ((range_sel_max mz2 int2 sel).map (fun x => qdiv x m2)) } := by
    simp only [init]
    rw [h1, h2]
  have hdiv1 : (fun x => qdiv x m1) = (fun x : ℚ => some (x / m1)) := by
    funext x; simp [qdiv, hm1ne]
  have hdiv2 : (fun x => qdiv x m2) = (fun x : ℚ => some (x / m2)) := by
    funext x; simp [qdiv, hm2ne]
  have hlen1 : (range_sel_max mz1 int1 sel).length = sel.length := by
    simp [range_sel_max]
  have hlen2 : (range_sel_max mz2 int2 sel).length = sel.length := by
    simp [range_sel_max]
  refine ⟨_, key, rfl, ?_, ?_, ?_, ?_, ?_⟩
  · simpa using hlen1
  · simpa using hlen2
  · simp [List.length_zip, hlen1, hlen2]
  · refine ⟨(range_sel_max mz1 int1 sel).map (fun x => x / m1), ?_, ?_⟩
    · rw [hdiv1, List.map_map]; rfl
    · have hspec := npMax_spec _ _ h1
      refine npMax_eq_of_mem_of_le _ 1 ?_ ?_
      · exact List.mem_map.mpr ⟨m1, hspec.1, div_self hm1ne⟩
      · intro x hx
        rcases List.mem_map.mp hx with ⟨y, hy, rfl⟩
        exact (div_le_one hp1).mpr (hspec.2 y hy)
  · refine ⟨(range_sel_max mz2 int2 sel).map (fun x => x / m2), ?_, ?_⟩
    · rw [hdiv2, List.map_map]; rfl
    · have hspec := npMax_spec _ _ h2
      refine npMax_eq_of_mem_of_le _ 1 ?_ ?_
      · exact List.mem_map.mpr ⟨m2, hspec.1, div_self hm2ne⟩
      · intro x hx
        rcases List.mem_map.mp hx with ⟨y, hy, rfl⟩
        exact (div_le_one hp2).mpr (hspec.2 y hy)

/-- Witness for C5 at chem1 = ([1], [5]), chem2 = ([1], [3]) and the single
window (0, 2): both extracted column maxima are positive (5 and 3). -/
theorem C5_witness :
    (npMax (range_sel_max [(1 : ℚ)] [(5 : ℚ)] [(0, 2)]) = some 5) ∧
    ((0 : ℚ) < 5) ∧
    (npMax (range_sel_max [(1 : ℚ)] [(3 : ℚ)] [(0, 2)]) = some 3) ∧
    ((0 : ℚ) < 3) ∧
    (∃ st, init [1] [5] [1] [3] [(0, 2)] = some st ∧
      st.coef = st.before.zip st.after ∧
      st.before.length = [((0 : ℚ), (2 : ℚ))].length ∧
      st.after.length = [((0 : ℚ), (2 : ℚ))].length ∧
      st.coef.length = [((0 : ℚ), (2 : ℚ))].length ∧
      (∃ qs : List ℚ, st.before = qs.map some ∧ npMax qs = some 1) ∧
      (∃ qs : List ℚ, st.after = qs.map some ∧ npMax qs = some 1)) :=
  ⟨by decide, by decide, by decide, by decide,
    C5_basis_normalized [1] [5] [1] [3] [(0, 2)] 5 3 (by decide) (by decide)
      (by decide) (by decide)⟩

/-- C2, evaluated at the failing input chem1 = ([1], [5]),
chem2 = ([1], [0]), windows [(0, 2)]: the second extracted column is [0]
with maximum 0, and `QuanDA.__init__` raises no error at all — there is no
DegenerateReferenceError in the code — but returns a basis whose second
column entry is non-finite (0.0/0.0, a NaN). -/
theorem C2_zero_column_returns_nonfinite :
    init [1] [5] [1] [0] [(0, 2)] =
      some { sel := [(0, 2)], before := [some 1], after := [none],
             coef := [(some 1, none)] } := by
  norm_num [init, range_sel_max, max_sel, np_boolSelect, np_and, np_mask_gt,
    np_mask_lt, npMax, qdiv, List.filterMap_cons]

/-- C3, evaluated at the failing input: basis with one window and row
b = [0], for which `scipy.optimize.nnls` returns the zero coefficient vector
[0, 0].  `QuanDA.calc` raises no error — there is no SingularFitError in the
code — but divides the row by its zero sum and returns NaN entries. -/
theorem C3_zero_sum_returns_nonfinite :
    calc_ (fun _ _ => [0, 0]) [(some 1, some 1)] [[0]] none =
      some [[none, none]] := by
  norm_num [calc_, joblibParallel, qdiv]

/-- C4: for every sample row whose fitted coefficients are non-negative
(the scipy nnls contract) and have positive sum, the fraction row returned
by `QuanDA.calc` for that row exists, is finite, has non-negative entries
and sums exactly to 1. -/
theorem C4_fractions_normalized
    (nnls : List (Option ℚ × Option ℚ) → List ℚ → List ℚ)
    (coef : List (Option ℚ × Option ℚ)) (B : List (List ℚ))
    (n_jobs : Option Int) (i : Nat) (hiB : i < B.length)
    (hnn : ∀ q ∈ nnls coef (B.getD i []), 0 ≤ q)
    (hpos : 0 < (nnls coef (B.getD i [])).sum) :
    ∃ rows, calc_ nnls coef B n_jobs = some rows ∧
      rows.length = B.length ∧
      ∃ qs : List ℚ, rows.getD i [] = qs.map some ∧ qs.sum = 1 ∧
        ∀ q ∈ qs, 0 ≤ q := by
  have hjb : joblibParallel n_jobs (B.map (fun b => fun _ => nnls coef b)) =
      B.map (fun b => nnls coef b) := by
    simp [joblibParallel, List.map_map]
  have hcalc : calc_ nnls coef B n_jobs =
      (match B.map (fun b => nnls coef b) with
        | [] => none
        | r :: rs =>
            some ((r :: rs).map (fun x => x.map (fun xi => qdiv xi x.sum)))) := by
    simp only [calc_]
    rw [hjb]
  cases B with
  | nil => exact absurd hiB (by simp)
  | cons b bs =>
      have hrows : calc_ nnls coef (b :: bs) n_jobs =
          some (((b :: bs).map (fun x => nnls coef x)).map
            (fun x => x.map (fun xi => qdiv xi x.sum))) := hcalc
      refine ⟨((b :: bs).map (fun x => nnls coef x)).map
        (fun x => x.map (fun xi => qdiv xi x.sum)), hrows, by simp, ?_⟩
      have hmm : ((b :: bs).map (fun x => nnls coef x)).map
          (fun x => x.map (fun xi => qdiv xi x.sum)) =
          (b :: bs).map (fun x => (nnls coef x).map
            (fun xi => qdiv xi (nnls coef x).sum)) := by
        rw [List.map_map]; rfl
      have hget : (((b :: bs).map (fun x => nnls coef x)).map
          (fun x => x.map (fun xi => qdiv xi x.sum))).getD i [] =
          (nnls coef ((b :: bs).getD i [])).map
            (fun xi => qdiv xi (nnls coef ((b :: bs).getD i [])).sum) := by
        rw [hmm]
        exact getD_map_of_lt
          (fun x => (nnls coef x).map (fun xi => qdiv xi (nnls coef x).sum))
          (b :: bs) i hiB [] []
      have hs : (nnls coef ((b :: bs).getD i [])).sum ≠ 0 := ne_of_gt hpos
      refine ⟨(nnls coef ((b :: bs).getD i [])).map
        (fun xi => xi / (nnls coef ((b :: bs).getD i [])).sum), ?_, ?_, ?_⟩
      · rw [hget]
        have hfun : (fun xi => qdiv xi (nnls coef ((b :: bs).getD i [])).sum) =
            (fun xi : ℚ => some (xi / (nnls coef ((b :: bs).getD i [])).sum)) := by
          funext xi; unfold qdiv; exact if_neg hs
        rw [hfun, List.map_map]; rfl
      · rw [sum_map_div]
        exact div_self hs
      · intro q hq
        rcases List.mem_map.mp hq with ⟨y, hy, rfl⟩
        exact div_nonneg (hnn y hy) (le_of_lt hpos)

/-- Witness for C4 with a constant solver returning coefficients [1, 3] on
the single sample row [0]. -/
theorem C4_witness :
    ((0 : Nat) < 1) ∧
    (∀ q ∈ [(1 : ℚ), 3], (0 : ℚ) ≤ q) ∧
    ((0 : ℚ) < ([(1 : ℚ), 3]).sum) ∧
    (∃ rows, calc_ (fun _ _ => [(1 : ℚ), 3]) [] [[0]] none = some rows ∧
      rows.length = 1 ∧
      ∃ qs : List ℚ, rows.getD 0 [] = qs.map some ∧ qs.sum = 1 ∧
        ∀ q ∈ qs, 0 ≤ q) :=
  ⟨by decide, by decide, by norm_num,
    C4_fractions_normalized (fun _ _ => [(1 : ℚ), 3]) [] [[0]] none 0
      (by decide) (by decide) (by norm_num)⟩

/-- C6 counterexample: on an empty spectrum list, `QuanDA.peak_sel` does not
return an empty 0-row matrix; `np.stack` raises a ValueError. -/
theorem C6_counterexample :
    peak_sel [((1 : ℚ), (2 : ℚ))] [] = none ∧
    peak_sel [((1 : ℚ), (2 : ℚ))] [] ≠ some [] := by decide

/-- C6 (amended): for every nonempty list of input spectra, `QuanDA.peak_sel`
returns a matrix with exactly one row per spectrum, the i-th row being the
window-max extraction of the i-th spectrum, in input order; on the empty
list it fails (np.stack raises) instead of returning a 0-row matrix. -/
theorem C6_batch_rows (sel : List (ℚ × ℚ)) (data : List (List ℚ × List ℚ))
    (hne : data ≠ []) :
    ∃ m, peak_sel sel data = some m ∧ m.length = data.length ∧
      ∀ i, i < data.length →
        m.getD i [] = range_sel_max (data.getD i ([], [])).1
          (data.getD i ([], [])).2 sel := by
  cases data with
  | nil => exact absurd rfl hne
  | cons d ds =>
      refine ⟨(d :: ds).map
        (fun spec : List ℚ × List ℚ => range_sel_max spec.1 spec.2 sel),
        rfl, by simp, ?_⟩
      intro i hi
      exact getD_map_of_lt
        (fun spec : List ℚ × List ℚ => range_sel_max spec.1 spec.2 sel)
        (d :: ds) i hi ([], []) []

/-- Witness for C6 on the one-spectrum list [([1], [5])]. -/
theorem C6_witness :
    (([([(1 : ℚ)], [(5 : ℚ)])] : List (List ℚ × List ℚ)) ≠ []) ∧
    (∃ m, peak_sel [((0 : ℚ), (2 : ℚ))] [([1], [5])] = some m ∧
      m.length = ([([(1 : ℚ)], [(5 : ℚ)])] : List (List ℚ × List ℚ)).length ∧
      ∀ i, i < ([([(1 : ℚ)], [(5 : ℚ)])] : List (List ℚ × List ℚ)).length →
        m.getD i [] = range_sel_max
          (([([(1 : ℚ)], [(5 : ℚ)])].getD i ([], [])).1)
          (([([(1 : ℚ)], [(5 : ℚ)])].getD i ([], [])).2)
          [((0 : ℚ), (2 : ℚ))]) :=
  ⟨by decide, C6_batch_rows [((0 : ℚ), (2 : ℚ))] [([1], [5])] (by decide)⟩

/-- C7: `QuanDA.calc` produces identical fraction estimates, in the same row
order, for any two values of `n_jobs` (the embedding of `joblib.Parallel`
returns results in submission order independently of the worker count). -/
theorem C7_parallel_equiv
    (nnls : List (Option ℚ × Option ℚ) → List ℚ → List ℚ)
    (coef : List (Option ℚ × Option ℚ)) (B : List (List ℚ))
    (n1 n2 : Option Int) :
    calc_ nnls coef B n1 = calc_ nnls coef B n2 := rfl

/-- C8: `range_sel_max` mutates none of its inputs: the heap-level run
returns the heap unchanged next to the value computed from the input m/z
array, intensity array and window list. -/
theorem C8_no_mutation (h : PyHeap) (mzA intA selsA : Nat) :
    (range_sel_max_onHeap h mzA intA selsA).1 = h ∧
    (range_sel_max_onHeap h mzA intA selsA).2 =
      range_sel_max (h.arr mzA) (h.arr intA) (h.wins selsA) :=
  ⟨rfl, rfl⟩

/-- C10: `QuanDA.__init__` deep-copies the caller's window list to a fresh
address, so mutating the caller's list after construction changes neither
the windows the instance stores nor the result of any subsequent `peak_sel`
or `calc` call on the instance. -/
theorem C10_deepcopy_isolation (h0 : PyHeap) (mz1 int1 mz2 int2 : List ℚ)
    (selA fresh : Nat) (hf : fresh ≠ selA) (L : List (ℚ × ℚ))
    (data : List (List ℚ × List ℚ)) (st : State)
    (nnls : List (Option ℚ × Option ℚ) → List ℚ → List ℚ)
    (B : List (List ℚ)) (n_jobs : Option Int) :
    (heapSetWins (init_onHeap h0 mz1 int1 mz2 int2 selA fresh).1 selA L).wins
        ((init_onHeap h0 mz1 int1 mz2 int2 selA fresh).2.1) =
      (init_onHeap h0 mz1 int1 mz2 int2 selA fresh).1.wins
        ((init_onHeap h0 mz1 int1 mz2 int2 selA fresh).2.1) ∧
    peak_sel_onHeap
        (heapSetWins (init_onHeap h0 mz1 int1 mz2 int2 selA fresh).1 selA L)
        ((init_onHeap h0 mz1 int1 mz2 int2 selA fresh).2.1) data =
      peak_sel_onHeap (init_onHeap h0 mz1 int1 mz2 int2 selA fresh).1
        ((init_onHeap h0 mz1 int1 mz2 int2 selA fresh).2.1) data ∧
    calc_onHeap
        (heapSetWins (init_onHeap h0 mz1 int1 mz2 int2 selA fresh).1 selA L)
        st nnls B n_jobs =
      calc_onHeap (init_onHeap h0 mz1 int1 mz2 int2 selA fresh).1
        st nnls B n_jobs := by
  have hw : (heapSetWins (init_onHeap h0 mz1 int1 mz2 int2 selA fresh).1
      selA L).wins ((init_onHeap h0 mz1 int1 mz2 int2 selA fresh).2.1) =
      (init_onHeap h0 mz1 int1 mz2 int2 selA fresh).1.wins
      ((init_onHeap h0 mz1 int1 mz2 int2 selA fresh).2.1) := by
    simp [heapSetWins, init_onHeap, hf]
  exact ⟨hw, by simp [peak_sel_onHeap, hw], rfl⟩

/-- Witness for C10 on an explicit heap with the caller list at address 0
and the deep copy at the distinct fresh address 1. -/
theorem C10_witness :
    ((1 : Nat) ≠ 0) ∧
    (heapSetWins (init_onHeap (PyHeap.mk (fun _ => []) (fun _ => []))
        [] [] [] [] 0 1).1 0 [((3 : ℚ), 4)]).wins
        ((init_onHeap (PyHeap.mk (fun _ => []) (fun _ => []))
          [] [] [] [] 0 1).2.1) =
      (init_onHeap (PyHeap.mk (fun _ => []) (fun _ => []))
        [] [] [] [] 0 1).1.wins
        ((init_onHeap (PyHeap.mk (fun _ => []) (fun _ => []))
          [] [] [] [] 0 1).2.1) ∧
    peak_sel_onHeap
        (heapSetWins (init_onHeap (PyHeap.mk (fun _ => []) (fun _ => []))
          [] [] [] [] 0 1).1 0 [((3 : ℚ), 4)])
        ((init_onHeap (PyHeap.mk (fun _ => []) (fun _ => []))
          [] [] [] [] 0 1).2.1) [] =
      peak_sel_onHeap (init_onHeap (PyHeap.mk (fun _ => []) (fun _ => []))
          [] [] [] [] 0 1).1
        ((init_onHeap (PyHeap.mk (fun _ => []) (fun _ => []))
          [] [] [] [] 0 1).2.1) [] ∧
    calc_onHeap
        (heapSetWins (init_onHeap (PyHeap.mk (fun _ => []) (fun _ => []))
          [] [] [] [] 0 1).1 0 [((3 : ℚ), 4)])
        (State.mk [] [] [] []) (fun _ _ => []) [] none =
      calc_onHeap (init_onHeap (PyHeap.mk (fun _ => []) (fun _ => []))
          [] [] [] [] 0 1).1
        (State.mk [] [] [] []) (fun _ _ => []) [] none :=
  ⟨by decide, C10_deepcopy_isolation (PyHeap.mk (fun _ => []) (fun _ => []))
    [] [] [] [] 0 1 (by decide) [((3 : ℚ), 4)] [] (State.mk [] [] [] [])
    (fun _ _ => []) [] none⟩

end QuanDA
